import Mathlib

/-!
Verification development for the steelix profile browser (src/steelix.py).

The Python module reconstructs a call tree from flat `pstats`-style data:
`StatInfo` holds one function's metrics, `ProfileBrowser.construct_tree`
materializes all `StatInfo` objects, links callers to children while counting
incoming references, and returns the zero-reference records as roots;
`StatNode` is the lazy tree cursor and `StatWidget` renders one row.

Embedding conventions:
* A `location` key `(filename, line_number, function_name)` is `Location`.
* Python dicts are insertion-ordered association lists; shared mutable
  `StatInfo` objects are modelled by a store `Store` keyed by location, and a
  `children_dictionary` entry stores the child's key (the object it holds in
  Python is exactly the store's record for that key).
* Times are rationals (`Rat`): the code only ever compares and prints them.
* Exceptions are modelled with `Except`: `BuildError.keyError` is Python's
  `KeyError`, `BuildError.attrError` the `AttributeError` raised by
  `None.keys()` when `parent_dictionary` is `None` (4-tuple input entries).
* Python's `list.sort(key=..., reverse=True)` is a stable descending sort; it
  is embedded as `List.insertionSort` with the relation `ttDesc`, which is
  stable and descending in `total_time` in exactly the same way.
-/

abbrev Location : Type := String × Nat × String

/-- Edge statistics stored as the values of a `callers` dictionary in the raw
pstats data.  The program never reads these fields; they are carried for
faithfulness to the input shape. -/
structure EdgeStat where
  cc : Nat
  nc : Nat
  tt : Rat
  ct : Rat
deriving DecidableEq

/-- One raw input entry: the 4-tuple `(num_calls, num_calls, total_time,
cumulative_time)` (`callers = none`) or the 5-tuple with a callers dictionary
(`callers = some ...`), as described in `StatInfo`'s docstring. -/
structure RawValue where
  cc : Nat
  nc : Nat
  total_time : Rat
  cumulative_time : Rat
  callers : Option (List (Location × EdgeStat))
deriving DecidableEq

/-- The raw profiling mapping (`pstats.Stats(filename).stats`): an
insertion-ordered dictionary from location to value tuple. -/
abbrev RawMapping : Type := List (Location × RawValue)

/-- `StatInfo.__init__`: metrics plus the raw callers dictionary
(`parent_dictionary`, `None` when the value tuple has length 4), an initially
empty `children_dictionary`, and a zero `reference_count`.
`children_dictionary` stores child keys; the child object is the store's
record at that key. -/
structure StatInfo where
  filename : String
  line_number : Nat
  function_name : String
  num_calls : Nat
  total_time : Rat
  cumulative_time : Rat
  parent_dictionary : Option (List (Location × EdgeStat))
  children_dictionary : List Location
  reference_count : Nat
  key_tuple : Location
deriving DecidableEq

/-- The heap of `StatInfo` objects (`self.stat_infos`), an insertion-ordered
dictionary from location to record. -/
abbrev Store : Type := List (Location × StatInfo)

/-- Dictionary lookup (`d[k]`, first matching key). -/
def alookup {α : Type} : List (Location × α) → Location → Option α
  | [], _ => none
  | (k', v) :: m, k => if k' = k then some v else alookup m k

/-- In-place mutation of the record stored at key `k` (a no-op when `k` is
absent; every use in this development updates a present key). -/
def aupdate {α : Type} : List (Location × α) → Location → (α → α) → List (Location × α)
  | [], _, _ => []
  | (k', v) :: m, k, f => if k' = k then (k', f v) :: m else (k', v) :: aupdate m k f

/-- The key list of a dictionary, in insertion order. -/
def keysOf {α : Type} (m : List (Location × α)) : List Location :=
  m.map Prod.fst

/-- Python dict assignment `d[k] = v` for a key-set dictionary: an existing
key keeps its position, a new key is appended. -/
def dinsert (l : List Location) (k : Location) : List Location :=
  if k ∈ l then l else l ++ [k]

/-- `StatInfo(key_tuple, value_tuple)`. -/
def statInfoOfRaw (k : Location) (v : RawValue) : StatInfo :=
  { filename := k.1
    line_number := k.2.1
    function_name := k.2.2
    num_calls := v.cc
    total_time := v.total_time
    cumulative_time := v.cumulative_time
    parent_dictionary := v.callers
    children_dictionary := []
    reference_count := 0
    key_tuple := k }

/-- The exceptions `construct_tree` can raise: `keyError loc` is the
`KeyError` from `self.stat_infos[loc]`, `attrError` the `AttributeError` from
`stat_info.parent_dictionary.keys()` when `parent_dictionary` is `None`. -/
inductive BuildError : Type where
  | keyError : Location → BuildError
  | attrError : BuildError
deriving DecidableEq

/-- First pass of `construct_tree`: `self.stat_infos[key] = StatInfo(key,
self.stats[key])` for every key of the raw mapping. -/
def materializeAll (raw : RawMapping) : Store :=
  raw.map (fun p => (p.1, statInfoOfRaw p.1 p.2))

/-- `parent_info.children_dictionary[key] = stat_info` (the child object is
the record stored at `childKey`). -/
def addChild (childKey : Location) (p : StatInfo) : StatInfo :=
  { p with children_dictionary := dinsert p.children_dictionary childKey }

/-- `stat_info.reference_count = stat_info.reference_count + 1`. -/
def incrRef (c : StatInfo) : StatInfo :=
  { c with reference_count := c.reference_count + 1 }

/-- One step of the inner loop of `construct_tree`'s link pass:
`parent_info = self.stat_infos[parent]` (KeyError when absent), then
`parent_info.children_dictionary[key] = stat_info` and
`stat_info.reference_count += 1`. -/
def linkCaller (childKey : Location) (m : Store) (parent : Location) :
    Except BuildError Store :=
  match alookup m parent with
  | none => Except.error (BuildError.keyError parent)
  | some _ =>
      Except.ok (aupdate (aupdate m parent (addChild childKey)) childKey incrRef)

/-- One step of the outer loop of the link pass: fetch `stat_info`, take
`parent_dictionary.keys()` (AttributeError when it is `None`), and process
each caller in dictionary order. -/
def linkEntry (m : Store) (key : Location) : Except BuildError Store :=
  match alookup m key with
  | none => Except.error (BuildError.keyError key)
  | some si =>
      match si.parent_dictionary with
      | none => Except.error BuildError.attrError
      | some callers => (callers.map Prod.fst).foldlM (linkCaller key) m

/-- `ProfileBrowser.construct_tree`: materialize every record, run the link
pass over every key, then return the store together with the records whose
`reference_count` is zero (the roots), in store insertion order. -/
def construct_tree (raw : RawMapping) : Except BuildError (Store × List StatInfo) :=
  match (raw.map Prod.fst).foldlM linkEntry (materializeAll raw) with
  | Except.error e => Except.error e
  | Except.ok m =>
      Except.ok (m, (m.map Prod.snd).filter (fun s => s.reference_count == 0))

/-- `StatNode`: key (always the wrapped record's `key_tuple`), parent
back-reference, wrapped record, depth. -/
inductive StatNode : Type where
  | mk : Location → Option StatNode → StatInfo → Nat → StatNode

def StatNode.key : StatNode → Location
  | .mk k _ _ _ => k

def StatNode.parent : StatNode → Option StatNode
  | .mk _ p _ _ => p

def StatNode.stat_info : StatNode → StatInfo
  | .mk _ _ s _ => s

def StatNode.depth : StatNode → Nat
  | .mk _ _ _ d => d

/-- `StatNode.__init__(stat_info, parent, depth)`: the node's key is
`stat_info.key_tuple`. -/
def StatNode.ofStatInfo (stat_info : StatInfo) (parent : Option StatNode) (depth : Nat) :
    StatNode :=
  StatNode.mk stat_info.key_tuple parent stat_info depth

/-- `StatNode.load_parent`. -/
def load_parent (n : StatNode) : Option StatNode :=
  n.parent

/-- The ordering used by `child_list.sort(key=lambda x: x.total_time,
reverse=True)`: `a` precedes `b` when `a.total_time >= b.total_time`. -/
def ttDesc (a b : StatInfo) : Prop :=
  b.total_time ≤ a.total_time

instance : DecidableRel ttDesc :=
  fun a b => inferInstanceAs (Decidable (b.total_time ≤ a.total_time))

instance : IsTotal StatInfo ttDesc :=
  ⟨fun a b => le_total b.total_time a.total_time⟩

instance : IsTrans StatInfo ttDesc :=
  ⟨fun _ _ _ h₁ h₂ => le_trans h₂ h₁⟩

/-- `StatNode.load_child_keys`: if the children dictionary is non-empty, pull
its records into a list in dictionary order, stable-sort them descending by
`total_time`, and return their key tuples; otherwise return `[]`.
(`children[key]` dereferences the shared object, i.e. the store's record.) -/
def load_child_keys (g : Store) (n : StatNode) : List Location :=
  if n.stat_info.children_dictionary.isEmpty then []
  else
    (((n.stat_info.children_dictionary.filterMap (fun k => alookup g k)).insertionSort
      ttDesc).map StatInfo.key_tuple)

/-- The exception `load_child_node` can raise: `children[key]` with an absent
key is a `KeyError`. -/
inductive ChildError : Type where
  | keyError : Location → ChildError
deriving DecidableEq

/-- `StatNode.load_child_node`: `None` key returns `None`; otherwise
`children[key]` (KeyError when absent) and a fresh node with `parent = self`
and `depth = self.depth + 1`.  The store lookup stands in for following the
object reference held in `children_dictionary`; for stores produced by
`construct_tree` it cannot fail when the key is present. -/
def load_child_node (g : Store) (n : StatNode) (key : Option Location) :
    Except ChildError (Option StatNode) :=
  match key with
  | none => Except.ok none
  | some k =>
      if k ∈ n.stat_info.children_dictionary then
        match alookup g k with
        | some child => Except.ok (some (StatNode.ofStatInfo child (some n) (n.depth + 1)))
        | none => Except.error (ChildError.keyError k)
      else Except.error (ChildError.keyError k)

/-- `TRAIL_LENGTH` in `StatWidget.truncate_filename`. -/
def TRAIL_LENGTH : Nat := 3

/-- Helper for `splitSlash`, structurally recursive over the character
list (so that it evaluates inside the kernel). -/
def splitSlashChars : List Char → List Char → List (List Char)
  | [], acc => [acc.reverse]
  | c :: cs, acc =>
      if c = '/' then acc.reverse :: splitSlashChars cs []
      else splitSlashChars cs (c :: acc)

/-- Python's `name.split('/')`: split at every slash, keeping empty
segments. -/
def splitSlash (name : String) : List String :=
  (splitSlashChars name.data []).map List.asString

/-- Python's `"/".join(parts)`. -/
def joinSlash : List String → String
  | [] => ""
  | [s] => s
  | s :: rest => s ++ "/" ++ joinSlash rest

/-- `StatWidget.truncate_filename`: split on `/`; with more than
`TRAIL_LENGTH` parts keep only the last `TRAIL_LENGTH` (`parts_split[-3:]`),
joined behind the marker `".../"`; otherwise return the name unchanged. -/
def truncate_filename (name : String) : String :=
  if (splitSlash name).length > TRAIL_LENGTH then
    ".../" ++ joinSlash ((splitSlash name).drop ((splitSlash name).length - TRAIL_LENGTH))
  else name

/-- `StatWidget.get_display_text`, as a function of the node's record
(numeric rendering of the rational times abstracts Python's float
rendering). -/
def get_display_text (si : StatInfo) : String :=
  truncate_filename si.filename ++ ":" ++ toString si.line_number ++ "(" ++
    si.function_name ++ ")" ++ "\n" ++
    "number of calls: " ++ toString si.num_calls ++ "  total time: " ++
    toString si.total_time ++ "  cumulative time: " ++ toString si.cumulative_time

/-- State-passing form of the `load_child_keys` call: the method body only
reads `self.stat_info.children_dictionary` and the store, and builds a local
list, so the post-state equals the pre-state. -/
def load_child_keys_call (st : Store × StatNode) : List Location × (Store × StatNode) :=
  (load_child_keys st.1 st.2, st)

/-- State-passing form of the `get_display_text` call: the method body only
reads the node's record. -/
def get_display_text_call (st : Store × StatNode) : String × (Store × StatNode) :=
  (get_display_text st.2.stat_info, st)

/-- The parent dictionary recorded at key `k` of a store (used to state that
the link pass never rewrites any `parent_dictionary`). -/
def pdAt (m : Store) (k : Location) : Option (Option (List (Location × EdgeStat))) :=
  (alookup m k).map StatInfo.parent_dictionary

/-- One parent-to-child edge of the built graph. -/
def childStep (m : Store) (a b : Location) : Prop :=
  ∃ s, alookup m a = some s ∧ b ∈ s.children_dictionary

/-- Reachability along child edges. -/
def ReachableFrom (m : Store) : Location → Location → Prop :=
  Relation.ReflTransGen (childStep m)

/-- The caller keys of one raw entry (empty for a 4-tuple entry). -/
def callerKeys (v : RawValue) : List Location :=
  (v.callers.getD []).map Prod.fst

deriving instance DecidableEq for Except

/-! ### Concrete inputs used by witnesses and counterexamples -/

/-- An arbitrary caller-edge statistic (the program never reads it). -/
def edge1 : EdgeStat := ⟨1, 1, 1, 1⟩

/-- Scenario A input: a single 4-tuple entry `(2, 2, 0.5, 0.5)` with no
callers component. -/
def c2raw : RawMapping := [(("a.py", 1, "f"), ⟨2, 2, 1/2, 1/2, none⟩)]

def locA : Location := ("a.py", 1, "a")

def locB : Location := ("a.py", 2, "b")

/-- A pure two-cycle: `a` and `b` list each other as callers, so neither has
a zero reference count. -/
def c3raw : RawMapping :=
  [(locA, ⟨1, 1, 1, 1, some [(locB, edge1)]⟩),
   (locB, ⟨1, 1, 1, 1, some [(locA, edge1)]⟩)]

def c3siA : StatInfo :=
  { filename := "a.py", line_number := 1, function_name := "a", num_calls := 1,
    total_time := 1, cumulative_time := 1,
    parent_dictionary := some [(locB, edge1)],
    children_dictionary := [locB], reference_count := 1, key_tuple := locA }

def c3siB : StatInfo :=
  { filename := "a.py", line_number := 2, function_name := "b", num_calls := 1,
    total_time := 1, cumulative_time := 1,
    parent_dictionary := some [(locA, edge1)],
    children_dictionary := [locA], reference_count := 1, key_tuple := locB }

/-- The store `construct_tree` builds from `c3raw`. -/
def c3store : Store := [(locA, c3siA), (locB, c3siB)]

def locG : Location := ("a.py", 2, "g")

def locF : Location := ("a.py", 1, "f")

/-- Scenario B input: `f` is called by `g`; `g` has an empty callers
dictionary. -/
def c4raw : RawMapping :=
  [(locG, ⟨3, 3, 2, 5, some []⟩),
   (locF, ⟨2, 2, 1, 1, some [(locG, edge1)]⟩)]

def c4siG : StatInfo :=
  { filename := "a.py", line_number := 2, function_name := "g", num_calls := 3,
    total_time := 2, cumulative_time := 5,
    parent_dictionary := some [],
    children_dictionary := [locF], reference_count := 0, key_tuple := locG }

def c4siF : StatInfo :=
  { filename := "a.py", line_number := 1, function_name := "f", num_calls := 2,
    total_time := 1, cumulative_time := 1,
    parent_dictionary := some [(locG, edge1)],
    children_dictionary := [], reference_count := 1, key_tuple := locF }

/-- The store `construct_tree` builds from `c4raw`. -/
def c4store : Store := [(locG, c4siG), (locF, c4siF)]

def locI : Location := ("b.py", 2, "i")

def locH : Location := ("b.py", 1, "h")

/-- Scenario C input: two disjoint chains g→f and i→h, listed with `g` first
although `i` has the larger cumulative time. -/
def c6raw : RawMapping :=
  [(locG, ⟨1, 1, 1, 1, some []⟩),
   (locF, ⟨1, 1, 1, 1, some [(locG, edge1)]⟩),
   (locI, ⟨1, 1, 1, 5, some []⟩),
   (locH, ⟨1, 1, 1, 1, some [(locI, edge1)]⟩)]

/-- Scenario D input: `f`'s callers reference a location absent from the
mapping. -/
def c5raw : RawMapping :=
  [(locG, ⟨1, 1, 1, 1, some []⟩),
   (locF, ⟨1, 1, 1, 1, some [(("z.py", 9, "zz"), edge1)]⟩)]

/-! ### A small hand-built record graph for the node-level claims

A parent with two children whose `total_time` and `cumulative_time` order
disagree: child `x` has the larger self time, child `y` the larger
cumulative time. -/

def demoKeyX : Location := ("p.py", 1, "x")

def demoKeyY : Location := ("q.py", 2, "y")

def demoKeyP : Location := ("p.py", 0, "par")

def demoSiX : StatInfo :=
  { filename := "p.py", line_number := 1, function_name := "x", num_calls := 1,
    total_time := 5, cumulative_time := 1,
    parent_dictionary := some [(demoKeyP, edge1)],
    children_dictionary := [], reference_count := 1, key_tuple := demoKeyX }

def demoSiY : StatInfo :=
  { filename := "q.py", line_number := 2, function_name := "y", num_calls := 1,
    total_time := 1, cumulative_time := 10,
    parent_dictionary := some [(demoKeyP, edge1)],
    children_dictionary := [], reference_count := 1, key_tuple := demoKeyY }

def demoSiP : StatInfo :=
  { filename := "p.py", line_number := 0, function_name := "par", num_calls := 1,
    total_time := 6, cumulative_time := 11,
    parent_dictionary := some [],
    children_dictionary := [demoKeyX, demoKeyY], reference_count := 0,
    key_tuple := demoKeyP }

def demoStore : Store := [(demoKeyP, demoSiP), (demoKeyX, demoSiX), (demoKeyY, demoSiY)]

/-- The root node over the demo graph's parent record. -/
def demoNode : StatNode := StatNode.ofStatInfo demoSiP none 0

/-- A second node wrapping the same record with different navigation
context. -/
def demoNodeAlt : StatNode := StatNode.mk demoKeyP (some demoNode) demoSiP 7

/-- Whether the record stored at key `k` carries total time `t` (false for
an unresolvable key, which cannot occur in a built graph).  Used to state
the stability of the child-key sort: for each time value the matching keys
keep their dictionary order. -/
def ttKeyEq (g : Store) (t : Rat) (k : Location) : Bool :=
  match alookup g k with
  | some s => s.total_time == t
  | none => false

/-! ### A record graph dedicated to the child-ordering claim

A parent with three children: `fx` has the largest self time but the
smallest cumulative time, while `fy` and `fz` tie on self time with their
dictionary insertion order (`fy` then `fz`) opposite to their location
order (`fz`'s location sorts first). -/

def c1KeyX : Location := ("x.py", 1, "fx")

def c1KeyY : Location := ("q.py", 2, "fy")

def c1KeyZ : Location := ("a.py", 0, "fz")

def c1KeyP : Location := ("x.py", 0, "fp")

def c1SiX : StatInfo :=
  { filename := "x.py", line_number := 1, function_name := "fx", num_calls := 1,
    total_time := 5, cumulative_time := 1,
    parent_dictionary := some [(c1KeyP, edge1)],
    children_dictionary := [], reference_count := 1, key_tuple := c1KeyX }

def c1SiY : StatInfo :=
  { filename := "q.py", line_number := 2, function_name := "fy", num_calls := 1,
    total_time := 1, cumulative_time := 10,
    parent_dictionary := some [(c1KeyP, edge1)],
    children_dictionary := [], reference_count := 1, key_tuple := c1KeyY }

def c1SiZ : StatInfo :=
  { filename := "a.py", line_number := 0, function_name := "fz", num_calls := 1,
    total_time := 1, cumulative_time := 2,
    parent_dictionary := some [(c1KeyP, edge1)],
    children_dictionary := [], reference_count := 1, key_tuple := c1KeyZ }

def c1SiP : StatInfo :=
  { filename := "x.py", line_number := 0, function_name := "fp", num_calls := 1,
    total_time := 7, cumulative_time := 13,
    parent_dictionary := some [],
    children_dictionary := [c1KeyX, c1KeyY, c1KeyZ], reference_count := 0,
    key_tuple := c1KeyP }

def c1Store : Store :=
  [(c1KeyP, c1SiP), (c1KeyX, c1SiX), (c1KeyY, c1SiY), (c1KeyZ, c1SiZ)]

/-- The root node over the three-children parent record. -/
def c1Node : StatNode := StatNode.ofStatInfo c1SiP none 0

/-! ### Dictionary lemmas -/

theorem alookup_eq_none {α : Type} (m : List (Location × α)) (k : Location) :
    alookup m k = none ↔ k ∉ keysOf m := by
  induction m with
  | nil => simp [alookup, keysOf]
  | cons p m ih =>
      obtain ⟨k', v⟩ := p
      by_cases h : k' = k
      · subst h
        simp [alookup, keysOf]
      · simp [alookup, keysOf, h, Ne.symm h, ih]

theorem alookup_isSome_of_mem {α : Type} {m : List (Location × α)} {k : Location}
    (h : k ∈ keysOf m) : ∃ v, alookup m k = some v := by
  cases hv : alookup m k with
  | none => exact absurd ((alookup_eq_none m k).mp hv) (by simp [h])
  | some v => exact ⟨v, rfl⟩

theorem alookup_mem {α : Type} {m : List (Location × α)} {k : Location} {v : α}
    (h : alookup m k = some v) : (k, v) ∈ m := by
  induction m with
  | nil => simp [alookup] at h
  | cons p m ih =>
      obtain ⟨k', v'⟩ := p
      by_cases hk : k' = k
      · subst hk
        simp [alookup] at h
        subst h
        exact List.mem_cons_self _ _
      · simp [alookup, hk] at h
        exact List.mem_cons_of_mem _ (ih h)

theorem mem_keysOf_of_alookup {α : Type} {m : List (Location × α)} {k : Location} {v : α}
    (h : alookup m k = some v) : k ∈ keysOf m := by
  have := alookup_mem h
  exact List.mem_map.mpr ⟨(k, v), this, rfl⟩

theorem alookup_of_mem_nodup {α : Type} {m : List (Location × α)}
    (hnd : (keysOf m).Nodup) {k : Location} {v : α} (h : (k, v) ∈ m) :
    alookup m k = some v := by
  induction m with
  | nil => simp at h
  | cons p m ih =>
      obtain ⟨k', v'⟩ := p
      simp only [keysOf, List.map_cons, List.nodup_cons] at hnd
      rcases List.mem_cons.mp h with h | h
      · obtain ⟨rfl, rfl⟩ := Prod.mk.injEq .. ▸ h
        simp [alookup]
      · have hk : k' ≠ k := by
          rintro rfl
          exact hnd.1 (List.mem_map.mpr ⟨(k', v), h, rfl⟩)
        simp [alookup, hk]
        exact ih hnd.2 h

theorem keysOf_aupdate {α : Type} (m : List (Location × α)) (k : Location) (f : α → α) :
    keysOf (aupdate m k f) = keysOf m := by
  induction m with
  | nil => rfl
  | cons p m ih =>
      obtain ⟨k', v⟩ := p
      simp only [keysOf] at ih ⊢
      by_cases h : k' = k
      · simp [aupdate, h]
      · simp [aupdate, h, ih]

theorem alookup_aupdate {α : Type} (m : List (Location × α)) (j : Location) (f : α → α)
    (k : Location) :
    alookup (aupdate m j f) k = if j = k then (alookup m k).map f else alookup m k := by
  induction m with
  | nil => by_cases h : j = k <;> simp [aupdate, alookup, h]
  | cons p m ih =>
      obtain ⟨k', v⟩ := p
      by_cases hj : k' = j
      · subst hj
        by_cases hk : k' = k
        · subst hk
          simp [aupdate, alookup]
        · simp [aupdate, alookup, hk, ih]
      · by_cases hk : k' = k
        · subst hk
          have : ¬ j = k' := fun h => hj h.symm
          simp [aupdate, alookup, hj, this]
        · simp [aupdate, alookup, hj, hk, ih]


/-! ### Except-monad reduction facts -/

theorem except_bind_error {ε α β : Type} (e : ε) (f : α → Except ε β) :
    (Except.error e >>= f) = Except.error e := rfl

theorem except_bind_ok {ε α β : Type} (a : α) (f : α → Except ε β) :
    (Except.ok a >>= f) = f a := rfl

theorem except_pure_eq_ok {ε α : Type} (a : α) :
    (pure a : Except ε α) = Except.ok a := rfl

/-! ### Link-pass invariants

The link pass only rewrites `children_dictionary` and `reference_count`
fields of existing records: the key set and every record's
`parent_dictionary` are unchanged by every successful step. -/

theorem pdAt_aupdate_addChild (m : Store) (j ck k : Location) :
    pdAt (aupdate m j (addChild ck)) k = pdAt m k := by
  unfold pdAt
  rw [alookup_aupdate]
  by_cases h : j = k
  · simp only [h, if_pos rfl]
    cases alookup m k <;> simp [addChild]
  · simp [h]

theorem pdAt_aupdate_incrRef (m : Store) (j k : Location) :
    pdAt (aupdate m j incrRef) k = pdAt m k := by
  unfold pdAt
  rw [alookup_aupdate]
  by_cases h : j = k
  · simp only [h, if_pos rfl]
    cases alookup m k <;> simp [incrRef]
  · simp [h]

theorem linkCaller_ok_keys {ck : Location} {m : Store} {p : Location} {m' : Store}
    (h : linkCaller ck m p = Except.ok m') : keysOf m' = keysOf m := by
  unfold linkCaller at h
  cases hl : alookup m p with
  | none => rw [hl] at h; exact absurd h (by simp)
  | some si =>
      rw [hl] at h
      simp only [Except.ok.injEq] at h
      subst h
      rw [keysOf_aupdate, keysOf_aupdate]

theorem linkCaller_ok_pdAt {ck : Location} {m : Store} {p : Location} {m' : Store}
    (h : linkCaller ck m p = Except.ok m') (k : Location) : pdAt m' k = pdAt m k := by
  unfold linkCaller at h
  cases hl : alookup m p with
  | none => rw [hl] at h; exact absurd h (by simp)
  | some si =>
      rw [hl] at h
      simp only [Except.ok.injEq] at h
      subst h
      rw [pdAt_aupdate_incrRef, pdAt_aupdate_addChild]

theorem linkCaller_ok_mem {ck : Location} {m : Store} {p : Location} {m' : Store}
    (h : linkCaller ck m p = Except.ok m') : p ∈ keysOf m := by
  unfold linkCaller at h
  cases hl : alookup m p with
  | none => rw [hl] at h; exact absurd h (by simp)
  | some si => exact mem_keysOf_of_alookup hl

theorem linkCaller_err {ck : Location} {m : Store} {p : Location} {e : BuildError}
    (h : linkCaller ck m p = Except.error e) :
    e = BuildError.keyError p ∧ p ∉ keysOf m := by
  unfold linkCaller at h
  cases hl : alookup m p with
  | none =>
      rw [hl] at h
      simp only [Except.error.injEq] at h
      exact ⟨h.symm, (alookup_eq_none m p).mp hl⟩
  | some si => rw [hl] at h; exact absurd h (by simp)

theorem foldl_linkCaller_ok {ck : Location} :
    ∀ (cs : List Location) (m m' : Store),
      cs.foldlM (linkCaller ck) m = Except.ok m' →
      keysOf m' = keysOf m ∧ (∀ k, pdAt m' k = pdAt m k) ∧ ∀ c ∈ cs, c ∈ keysOf m := by
  intro cs
  induction cs with
  | nil =>
      intro m m' h
      simp only [List.foldlM_nil, except_pure_eq_ok, Except.ok.injEq] at h
      subst h
      exact ⟨rfl, fun _ => rfl, by simp⟩
  | cons c cs ih =>
      intro m m' h
      rw [List.foldlM_cons] at h
      cases hc : linkCaller ck m c with
      | error e => rw [hc, except_bind_error] at h; exact absurd h (by simp)
      | ok m₁ =>
          rw [hc, except_bind_ok] at h
          obtain ⟨hk, hpd, hmem⟩ := ih m₁ m' h
          refine ⟨hk.trans (linkCaller_ok_keys hc), ?_, ?_⟩
          · exact fun k => (hpd k).trans (linkCaller_ok_pdAt hc k)
          · intro c' hc'
            rcases List.mem_cons.mp hc' with rfl | hc'
            · exact linkCaller_ok_mem hc
            · exact (linkCaller_ok_keys hc) ▸ hmem c' hc'

theorem foldl_linkCaller_err {ck : Location} :
    ∀ (cs : List Location) (m : Store) (e : BuildError),
      cs.foldlM (linkCaller ck) m = Except.error e →
      ∃ loc, e = BuildError.keyError loc ∧ loc ∉ keysOf m := by
  intro cs
  induction cs with
  | nil =>
      intro m e h
      simp only [List.foldlM_nil, except_pure_eq_ok] at h
      exact absurd h (by simp)
  | cons c cs ih =>
      intro m e h
      rw [List.foldlM_cons] at h
      cases hc : linkCaller ck m c with
      | error e' =>
          rw [hc, except_bind_error] at h
          simp only [Except.error.injEq] at h
          subst h
          obtain ⟨he, hm⟩ := linkCaller_err hc
          exact ⟨c, he, hm⟩
      | ok m₁ =>
          rw [hc, except_bind_ok] at h
          obtain ⟨loc, he, hm⟩ := ih m₁ e h
          exact ⟨loc, he, (linkCaller_ok_keys hc) ▸ hm⟩

theorem linkEntry_ok_pres {m : Store} {k : Location} {m' : Store}
    (h : linkEntry m k = Except.ok m') :
    keysOf m' = keysOf m ∧ ∀ j, pdAt m' j = pdAt m j := by
  cases hl : alookup m k with
  | none =>
      simp only [linkEntry, hl] at h
      exact Except.noConfusion h
  | some si =>
      cases hpd : si.parent_dictionary with
      | none =>
          simp only [linkEntry, hl, hpd] at h
          exact Except.noConfusion h
      | some callers =>
          simp only [linkEntry, hl, hpd] at h
          obtain ⟨hk, hpdm, _⟩ := foldl_linkCaller_ok (callers.map Prod.fst) m m' h
          exact ⟨hk, hpdm⟩

theorem linkEntry_ok_callers {m : Store} {k : Location} {m' : Store}
    (h : linkEntry m k = Except.ok m') {si : StatInfo} (hsi : alookup m k = some si)
    {cs : List (Location × EdgeStat)} (hcs : si.parent_dictionary = some cs) :
    ∀ c ∈ cs.map Prod.fst, c ∈ keysOf m := by
  simp only [linkEntry, hsi, hcs] at h
  exact (foldl_linkCaller_ok (cs.map Prod.fst) m m' h).2.2

theorem linkEntry_err {m : Store} {k : Location} {e : BuildError}
    (hk : k ∈ keysOf m)
    (hpd : ∀ si, alookup m k = some si → si.parent_dictionary.isSome)
    (h : linkEntry m k = Except.error e) :
    ∃ loc, e = BuildError.keyError loc ∧ loc ∉ keysOf m := by
  obtain ⟨si, hsi⟩ := alookup_isSome_of_mem hk
  cases hp : si.parent_dictionary with
  | none => exact absurd (hp ▸ hpd si hsi) (by simp)
  | some callers =>
      simp only [linkEntry, hsi, hp] at h
      exact foldl_linkCaller_err (callers.map Prod.fst) m e h

theorem foldl_linkEntry_ok_pres :
    ∀ (ks : List Location) (m mfin : Store),
      ks.foldlM linkEntry m = Except.ok mfin →
      keysOf mfin = keysOf m ∧ ∀ j, pdAt mfin j = pdAt m j := by
  intro ks
  induction ks with
  | nil =>
      intro m mfin h
      simp only [List.foldlM_nil, except_pure_eq_ok, Except.ok.injEq] at h
      subst h
      exact ⟨rfl, fun _ => rfl⟩
  | cons k ks ih =>
      intro m mfin h
      rw [List.foldlM_cons] at h
      cases hk : linkEntry m k with
      | error e => rw [hk, except_bind_error] at h; exact absurd h (by simp)
      | ok m₁ =>
          rw [hk, except_bind_ok] at h
          obtain ⟨h1, h2⟩ := ih m₁ mfin h
          obtain ⟨h3, h4⟩ := linkEntry_ok_pres hk
          exact ⟨h1.trans h3, fun j => (h2 j).trans (h4 j)⟩

theorem foldl_linkEntry_known :
    ∀ (ks : List Location) (m mfin : Store),
      ks.foldlM linkEntry m = Except.ok mfin →
      ∀ k ∈ ks, ∀ si, alookup m k = some si →
        ∀ cs : List (Location × EdgeStat), si.parent_dictionary = some cs →
          ∀ c ∈ cs.map Prod.fst, c ∈ keysOf m := by
  intro ks
  induction ks with
  | nil => intro m mfin _ k hk; simp at hk
  | cons k₀ ks ih =>
      intro m mfin h k hk si hsi cs hcs c hc
      rw [List.foldlM_cons] at h
      cases hk₀ : linkEntry m k₀ with
      | error e => rw [hk₀, except_bind_error] at h; exact absurd h (by simp)
      | ok m₁ =>
          rw [hk₀, except_bind_ok] at h
          rcases List.mem_cons.mp hk with rfl | hk'
          · exact linkEntry_ok_callers hk₀ hsi hcs c hc
          · obtain ⟨hkeys, hpd⟩ := linkEntry_ok_pres hk₀
            have hpd₁ : pdAt m₁ k = some si.parent_dictionary := by
              rw [hpd k]
              unfold pdAt
              rw [hsi]
              rfl
            obtain ⟨si₁, hsi₁, hpd₁'⟩ : ∃ si₁, alookup m₁ k = some si₁ ∧
                si₁.parent_dictionary = si.parent_dictionary := by
              unfold pdAt at hpd₁
              cases hx : alookup m₁ k with
              | none => rw [hx] at hpd₁; exact absurd hpd₁ (by simp)
              | some si₁ =>
                  rw [hx] at hpd₁
                  simp only [Option.map_some', Option.some.injEq] at hpd₁
                  exact ⟨si₁, rfl, hpd₁⟩
            have := ih m₁ mfin h k hk' si₁ hsi₁ cs (hpd₁'.trans hcs) c hc
            exact hkeys ▸ this

theorem foldl_linkEntry_err :
    ∀ (ks : List Location) (m : Store) (e : BuildError),
      (∀ k ∈ ks, k ∈ keysOf m ∧
        ∀ si, alookup m k = some si → si.parent_dictionary.isSome) →
      ks.foldlM linkEntry m = Except.error e →
      ∃ loc, e = BuildError.keyError loc ∧ loc ∉ keysOf m := by
  intro ks
  induction ks with
  | nil =>
      intro m e _ h
      simp only [List.foldlM_nil, except_pure_eq_ok] at h
      exact absurd h (by simp)
  | cons k₀ ks ih =>
      intro m e hall h
      rw [List.foldlM_cons] at h
      cases hk₀ : linkEntry m k₀ with
      | error e' =>
          rw [hk₀, except_bind_error] at h
          simp only [Except.error.injEq] at h
          subst h
          exact linkEntry_err (hall k₀ (by simp)).1 (hall k₀ (by simp)).2 hk₀
      | ok m₁ =>
          rw [hk₀, except_bind_ok] at h
          obtain ⟨hkeys, hpd⟩ := linkEntry_ok_pres hk₀
          have hall₁ : ∀ k ∈ ks, k ∈ keysOf m₁ ∧
              ∀ si, alookup m₁ k = some si → si.parent_dictionary.isSome := by
            intro k hk
            obtain ⟨h1, h2⟩ := hall k (List.mem_cons_of_mem _ hk)
            refine ⟨hkeys ▸ h1, ?_⟩
            intro si₁ hsi₁
            have hpd₁ := hpd k
            unfold pdAt at hpd₁
            rw [hsi₁] at hpd₁
            cases hx : alookup m k with
            | none => rw [hx] at hpd₁; exact absurd hpd₁.symm (by simp)
            | some si =>
                rw [hx] at hpd₁
                simp only [Option.map_some', Option.some.injEq] at hpd₁
                exact hpd₁ ▸ h2 si hx
          obtain ⟨loc, he, hm⟩ := ih m₁ e hall₁ h
          exact ⟨loc, he, hkeys ▸ hm⟩

/-! ### Materialize pass and construct_tree characterization -/

theorem keysOf_materializeAll (raw : RawMapping) :
    keysOf (materializeAll raw) = raw.map Prod.fst := by
  simp [keysOf, materializeAll, List.map_map, Function.comp]

theorem alookup_materializeAll (raw : RawMapping) (k : Location) :
    alookup (materializeAll raw) k = (alookup raw k).map (statInfoOfRaw k) := by
  induction raw with
  | nil => rfl
  | cons p raw ih =>
      obtain ⟨k', v⟩ := p
      by_cases h : k' = k
      · subst h
        simp [materializeAll, alookup]
      · simpa [materializeAll, alookup, h] using ih

theorem construct_tree_ok {raw : RawMapping} {m : Store} {roots : List StatInfo}
    (h : construct_tree raw = Except.ok (m, roots)) :
    (raw.map Prod.fst).foldlM linkEntry (materializeAll raw) = Except.ok m ∧
    roots = (m.map Prod.snd).filter (fun s => s.reference_count == 0) := by
  cases hf : (raw.map Prod.fst).foldlM linkEntry (materializeAll raw) with
  | error e =>
      simp only [construct_tree, hf] at h
      exact Except.noConfusion h
  | ok m' =>
      simp only [construct_tree, hf, Except.ok.injEq, Prod.mk.injEq] at h
      obtain ⟨h1, h2⟩ := h
      subst h1
      exact ⟨rfl, h2.symm⟩

theorem construct_tree_err {raw : RawMapping} {e : BuildError}
    (hf : (raw.map Prod.fst).foldlM linkEntry (materializeAll raw) = Except.error e) :
    construct_tree raw = Except.error e := by
  simp only [construct_tree, hf]

/-- C5: if any record's callers mapping references a caller location with no
entry in the raw mapping, `construct_tree` fails fast with the lookup error
for an unknown location (so no root set is ever produced) instead of
silently skipping the edge. -/
theorem construct_tree_unknown_caller (raw : RawMapping)
    (hnd : (raw.map Prod.fst).Nodup)
    (hsome : ∀ p ∈ raw, (p.2).callers.isSome)
    (hbad : ∃ p ∈ raw, ∃ c ∈ callerKeys p.2, c ∉ raw.map Prod.fst) :
    ∃ loc, construct_tree raw = Except.error (BuildError.keyError loc) ∧
      loc ∉ raw.map Prod.fst := by
  have hkeys0 : keysOf (materializeAll raw) = raw.map Prod.fst :=
    keysOf_materializeAll raw
  have hall : ∀ k ∈ raw.map Prod.fst, k ∈ keysOf (materializeAll raw) ∧
      ∀ si, alookup (materializeAll raw) k = some si →
        si.parent_dictionary.isSome := by
    intro k hk
    refine ⟨hkeys0 ▸ hk, ?_⟩
    intro si hsi
    rw [alookup_materializeAll] at hsi
    cases hv : alookup raw k with
    | none => rw [hv] at hsi; exact Option.noConfusion hsi
    | some v =>
        rw [hv] at hsi
        simp only [Option.map_some', Option.some.injEq] at hsi
        subst hsi
        simpa [statInfoOfRaw] using hsome (k, v) (alookup_mem hv)
  cases hf : (raw.map Prod.fst).foldlM linkEntry (materializeAll raw) with
  | error e =>
      obtain ⟨loc, he, hm⟩ := foldl_linkEntry_err _ _ _ hall hf
      subst he
      refine ⟨loc, construct_tree_err hf, ?_⟩
      rw [← hkeys0]
      exact hm
  | ok mfin =>
      exfalso
      obtain ⟨⟨k, v⟩, hp, c, hc, hcnot⟩ := hbad
      have hv : alookup raw k = some v := alookup_of_mem_nodup hnd hp
      have hsi : alookup (materializeAll raw) k = some (statInfoOfRaw k v) := by
        rw [alookup_materializeAll, hv]
        rfl
      cases hcs : v.callers with
      | none =>
          have hs := hsome (k, v) hp
          rw [hcs] at hs
          simp at hs
      | some cs =>
          have hc' : c ∈ cs.map Prod.fst := by
            simpa [callerKeys, hcs] using hc
          have hmem := foldl_linkEntry_known (raw.map Prod.fst) (materializeAll raw)
            mfin hf k (List.mem_map.mpr ⟨(k, v), hp, rfl⟩) (statInfoOfRaw k v) hsi
            cs (by simp [statInfoOfRaw, hcs]) c hc'
          exact hcnot (hkeys0 ▸ hmem)

/-- C5 witness: on the Scenario D input, construction fails with the lookup
error for the unknown caller location. -/
theorem construct_tree_unknown_caller_witness :
    (c5raw.map Prod.fst).Nodup ∧ (∀ p ∈ c5raw, (p.2).callers.isSome) ∧
    (∃ p ∈ c5raw, ∃ c ∈ callerKeys p.2, c ∉ c5raw.map Prod.fst) ∧
    ∃ loc, construct_tree c5raw = Except.error (BuildError.keyError loc) ∧
      loc ∉ c5raw.map Prod.fst :=
  ⟨by decide, by decide, by decide,
    construct_tree_unknown_caller c5raw (by decide) (by decide) (by decide)⟩

/-- C2: on the Scenario A input (a single 4-tuple entry with no callers
component), `construct_tree` does not succeed: the link pass evaluates
`stat_info.parent_dictionary.keys()` with `parent_dictionary = None` and
raises `AttributeError`, contradicting both `StatInfo`'s own docstring and
`StatInfo.__init__`'s explicit handling of 4-tuple values. -/
theorem construct_tree_scenarioA_attrError :
    construct_tree c2raw = Except.error BuildError.attrError := by decide

/-- C3 (amended): when no record has a zero incoming-reference count after
the link pass, `construct_tree` returns normally with an empty roots list;
no `NoRootError` (or any error) is raised. -/
theorem construct_tree_no_root_returns_empty (raw : RawMapping) (m : Store)
    (roots : List StatInfo) (h : construct_tree raw = Except.ok (m, roots))
    (hz : ∀ p ∈ m, p.2.reference_count ≠ 0) : roots = [] := by
  obtain ⟨-, hroots⟩ := construct_tree_ok h
  rw [hroots]
  rw [List.filter_eq_nil_iff]
  intro s hs
  obtain ⟨p, hp, rfl⟩ := List.mem_map.mp hs
  simp [hz p hp]

/-- C3 counterexample: on a non-empty all-cycle input every record has a
positive reference count, yet `construct_tree` returns a result (with an
empty roots list) instead of raising an error. -/
theorem construct_tree_cycle_returns_ok :
    construct_tree c3raw = Except.ok (c3store, []) ∧
    ∀ p ∈ c3store, 1 ≤ p.2.reference_count := by
  exact ⟨by decide, by decide⟩

/-- C3 witness: the amended claim applied to the all-cycle input. -/
theorem construct_tree_no_root_returns_empty_witness :
    construct_tree c3raw = Except.ok (c3store, []) ∧
    (∀ p ∈ c3store, p.2.reference_count ≠ 0) ∧ ([] : List StatInfo) = [] :=
  ⟨by decide, by decide,
    construct_tree_no_root_returns_empty c3raw c3store [] (by decide) (by decide)⟩

/-- C4: the roots returned by `construct_tree` are exactly the records whose
`reference_count` is zero after the link pass (in store order), and every
non-root record reachable from any root has `reference_count >= 1`. -/
theorem construct_tree_roots_spec (raw : RawMapping) (m : Store)
    (roots : List StatInfo) (h : construct_tree raw = Except.ok (m, roots)) :
    roots = (m.map Prod.snd).filter (fun s => s.reference_count == 0) ∧
    ∀ r ∈ roots, ∀ s ∈ m.map Prod.snd, ReachableFrom m r.key_tuple s.key_tuple →
      s ∉ roots → 1 ≤ s.reference_count := by
  obtain ⟨-, hroots⟩ := construct_tree_ok h
  refine ⟨hroots, ?_⟩
  intro r _ s hs _ hnot
  by_contra hlt
  have hz : s.reference_count = 0 := by omega
  exact hnot (hroots ▸ List.mem_filter.mpr ⟨hs, by simp [hz]⟩)

/-- C4 witness: the root/reference-count contract on the Scenario B input
(`f` called by `g`). -/
theorem construct_tree_roots_spec_witness :
    construct_tree c4raw = Except.ok (c4store, [c4siG]) ∧
    ([c4siG] = (c4store.map Prod.snd).filter (fun s => s.reference_count == 0) ∧
     ∀ r ∈ [c4siG], ∀ s ∈ c4store.map Prod.snd,
       ReachableFrom c4store r.key_tuple s.key_tuple →
         s ∉ [c4siG] → 1 ≤ s.reference_count) :=
  ⟨by decide, construct_tree_roots_spec c4raw c4store [c4siG] (by decide)⟩

/-- C6 (amended): on the Scenario C input (disjoint chains g→f and i→h) the
roots list has length 2 and contains exactly `g` and `i`, in the order the
two chains appear in the input mapping (which here is ascending, not
descending, cumulative time). -/
theorem construct_tree_scenarioC_roots :
    (construct_tree c6raw).toOption.map (fun p => p.2.map StatInfo.key_tuple) =
      some [locG, locI] := by decide

/-- C6 counterexample: the two roots come back in input order `[g, i]` whose
cumulative times are `[1, 5]`, an ascending sequence, so the roots are not
ordered by descending cumulative time. -/
theorem construct_tree_scenarioC_not_ct_sorted :
    (construct_tree c6raw).toOption.map (fun p => p.2.map StatInfo.key_tuple) =
      some [locG, locI] ∧
    (construct_tree c6raw).toOption.map (fun p => p.2.map StatInfo.cumulative_time) =
      some [1, 5] ∧
    ¬ ((5 : Rat) ≤ (1 : Rat)) :=
  ⟨by decide, by decide, by decide⟩

/-! ### Child-key ordering (C1, C7) -/

theorem alookup_key_tuple {g : Store} (hg : ∀ p ∈ g, p.2.key_tuple = p.1)
    {k : Location} {s : StatInfo} (h : alookup g k = some s) : s.key_tuple = k :=
  hg (k, s) (alookup_mem h)

theorem filterMap_alookup_keys {g : Store} (hg : ∀ p ∈ g, p.2.key_tuple = p.1) :
    ∀ l : List Location, (∀ k ∈ l, k ∈ keysOf g) →
      (l.filterMap (fun k => alookup g k)).map StatInfo.key_tuple = l := by
  intro l
  induction l with
  | nil => simp
  | cons k l ih =>
      intro h
      obtain ⟨s, hs⟩ := alookup_isSome_of_mem (h k (by simp))
      simp only [List.filterMap_cons, hs, List.map_cons]
      rw [alookup_key_tuple hg hs, ih (fun k' hk' => h k' (List.mem_cons_of_mem _ hk'))]

theorem filter_orderedInsert_ttDesc (t : Rat) (a : StatInfo) :
    ∀ l : List StatInfo,
      (List.orderedInsert ttDesc a l).filter (fun s => s.total_time == t) =
        if a.total_time == t then
          a :: l.filter (fun s => s.total_time == t)
        else l.filter (fun s => s.total_time == t) := by
  intro l
  induction l with
  | nil =>
      by_cases hpa : a.total_time == t <;>
        simp [List.orderedInsert, List.filter_cons, hpa]
  | cons b l ih =>
      by_cases hab : ttDesc a b
      · have hins : List.orderedInsert ttDesc a (b :: l) = a :: b :: l := by
          simp [List.orderedInsert, hab]
        rw [hins]
        by_cases hpa : a.total_time == t <;> simp [List.filter_cons, hpa]
      · have hins : List.orderedInsert ttDesc a (b :: l) =
            b :: List.orderedInsert ttDesc a l := by
          simp [List.orderedInsert, hab]
        rw [hins]
        by_cases hpa : a.total_time == t
        · have hb2 : ¬ (b.total_time = t) := by
            intro hb2
            apply hab
            have ha2 : a.total_time = t := by simpa using hpa
            simp [ttDesc, ha2, hb2]
          have hpb : (b.total_time == t) = false := by simpa using hb2
          simp [List.filter_cons, hpa, hpb, ih]
        · by_cases hpb : b.total_time == t <;>
            simp [List.filter_cons, hpa, hpb, ih]

theorem filter_insertionSort_ttDesc (t : Rat) :
    ∀ l : List StatInfo,
      (l.insertionSort ttDesc).filter (fun s => s.total_time == t) =
        l.filter (fun s => s.total_time == t) := by
  intro l
  induction l with
  | nil => rfl
  | cons a l ih =>
      simp only [List.insertionSort]
      rw [filter_orderedInsert_ttDesc, ih]
      by_cases hpa : a.total_time == t <;> simp [List.filter_cons, hpa]

theorem filterMap_alookup_filter {g : Store} (hg : ∀ p ∈ g, p.2.key_tuple = p.1)
    (t : Rat) :
    ∀ l : List Location, (∀ k ∈ l, k ∈ keysOf g) →
      ((l.filterMap (fun k => alookup g k)).filter
          (fun s => s.total_time == t)).map StatInfo.key_tuple =
        l.filter (ttKeyEq g t) := by
  intro l
  induction l with
  | nil => simp
  | cons k l ih =>
      intro h
      obtain ⟨s, hs⟩ := alookup_isSome_of_mem (h k (by simp))
      have hkey : s.key_tuple = k := alookup_key_tuple hg hs
      have hrest := ih (fun k' hk' => h k' (List.mem_cons_of_mem _ hk'))
      simp only [List.filterMap_cons, hs, List.filter_cons]
      by_cases hp : (s.total_time == t) = true
      · have hq : ttKeyEq g t k = true := by simp [ttKeyEq, hs, hp]
        simp [hp, hq, hkey, hrest]
      · have hq : ttKeyEq g t k = false := by
          simp only [ttKeyEq, hs]
          simpa using hp
        simp [hp, hq, hrest]

/-- C1 (amended): `child_keys()` is a permutation of exactly the wrapped
record's children keys, ordered by non-strictly descending `total_time` (the
self-time field the code actually sorts on); keys whose records tie on
`total_time` keep the children dictionary's insertion order (for every time
value `t`, the subsequence of keys carrying total time `t` is the same, in
order, as in the children dictionary); the result is empty when the record
has no children.  The hypotheses say the store is the one the records live
in: every child key resolves, and every stored record's `key_tuple` is its
store key. -/
theorem load_child_keys_spec (g : Store) (n : StatNode)
    (h1 : ∀ k ∈ n.stat_info.children_dictionary, k ∈ keysOf g)
    (h2 : ∀ p ∈ g, p.2.key_tuple = p.1) :
    (load_child_keys g n).Perm n.stat_info.children_dictionary ∧
    List.Pairwise
      (fun k₁ k₂ => ∀ s₁ s₂, alookup g k₁ = some s₁ → alookup g k₂ = some s₂ →
        s₂.total_time ≤ s₁.total_time)
      (load_child_keys g n) ∧
    (∀ t : Rat, (load_child_keys g n).filter (ttKeyEq g t) =
      n.stat_info.children_dictionary.filter (ttKeyEq g t)) ∧
    (n.stat_info.children_dictionary = [] → load_child_keys g n = []) := by
  by_cases hemp : n.stat_info.children_dictionary.isEmpty
  · have hnil := List.isEmpty_iff.mp hemp
    refine ⟨?_, ?_, fun t => ?_, fun _ => ?_⟩ <;> simp [load_child_keys, hemp, hnil]
  · have hlck : load_child_keys g n =
        ((n.stat_info.children_dictionary.filterMap
          (fun k => alookup g k)).insertionSort ttDesc).map StatInfo.key_tuple := by
      simp [load_child_keys, hemp]
    have hperm :
        ((n.stat_info.children_dictionary.filterMap
          (fun k => alookup g k)).insertionSort ttDesc).Perm
          (n.stat_info.children_dictionary.filterMap (fun k => alookup g k)) :=
      List.perm_insertionSort ttDesc _
    have hself : ∀ a ∈ (n.stat_info.children_dictionary.filterMap
        (fun k => alookup g k)).insertionSort ttDesc,
        alookup g a.key_tuple = some a := by
      intro a ha
      obtain ⟨ka, hka, haka⟩ := List.mem_filterMap.mp (hperm.subset ha)
      rw [alookup_key_tuple h2 haka]
      exact haka
    refine ⟨?_, ?_, ?_, ?_⟩
    · rw [hlck]
      have := hperm.map StatInfo.key_tuple
      rw [filterMap_alookup_keys h2 _ h1] at this
      exact this
    · rw [hlck, List.pairwise_map]
      have hsorted : List.Pairwise ttDesc
          ((n.stat_info.children_dictionary.filterMap
            (fun k => alookup g k)).insertionSort ttDesc) :=
        List.sorted_insertionSort ttDesc _
      refine List.Pairwise.imp_of_mem ?_ hsorted
      intro a b ha hb hab s₁ s₂ hs₁ hs₂
      rw [hself a ha] at hs₁
      rw [hself b hb] at hs₂
      cases hs₁
      cases hs₂
      exact hab
    · intro t
      rw [hlck, List.filter_map]
      have hcongr :
          ((n.stat_info.children_dictionary.filterMap
            (fun k => alookup g k)).insertionSort ttDesc).filter
              (ttKeyEq g t ∘ StatInfo.key_tuple) =
          ((n.stat_info.children_dictionary.filterMap
            (fun k => alookup g k)).insertionSort ttDesc).filter
              (fun s => s.total_time == t) := by
        apply List.filter_congr
        intro a ha
        simp [Function.comp, ttKeyEq, hself a ha]
      rw [hcongr, filter_insertionSort_ttDesc,
        filterMap_alookup_filter h2 t _ h1]
    · intro hnil
      rw [hnil] at hemp
      simp at hemp

/-- C1 witness: the full ordering contract on the three-children graph,
whose children include an equal-`total_time` pair. -/
theorem load_child_keys_spec_witness :
    (∀ k ∈ c1Node.stat_info.children_dictionary, k ∈ keysOf c1Store) ∧
    (∀ p ∈ c1Store, p.2.key_tuple = p.1) ∧
    ((load_child_keys c1Store c1Node).Perm
        c1Node.stat_info.children_dictionary ∧
      List.Pairwise
        (fun k₁ k₂ => ∀ s₁ s₂, alookup c1Store k₁ = some s₁ →
          alookup c1Store k₂ = some s₂ → s₂.total_time ≤ s₁.total_time)
        (load_child_keys c1Store c1Node) ∧
      (∀ t : Rat, (load_child_keys c1Store c1Node).filter (ttKeyEq c1Store t) =
        c1Node.stat_info.children_dictionary.filter (ttKeyEq c1Store t)) ∧
      (c1Node.stat_info.children_dictionary = [] →
        load_child_keys c1Store c1Node = [])) :=
  ⟨by decide, by decide, load_child_keys_spec c1Store c1Node (by decide) (by decide)⟩

/-- C1 counterexample: on the three-children graph `child_keys()` returns
`[fx, fy, fz]`.  `fx` leads although its cumulative time (1) is smaller
than `fy`'s (10), so the sequence is not sorted by descending
`cumulative_time`; and the equal-self-time pair comes back in dictionary
order `fy, fz` although `fz`'s location sorts before `fy`'s (its filename
`"a.py"` precedes `"q.py"` character-wise), so ties are not broken by
location either. -/
theorem load_child_keys_not_claim_order :
    load_child_keys c1Store c1Node = [c1KeyX, c1KeyY, c1KeyZ] ∧
    ttKeyEq c1Store 1 c1KeyY = true ∧ ttKeyEq c1Store 1 c1KeyZ = true ∧
    (alookup c1Store c1KeyX).map StatInfo.cumulative_time = some 1 ∧
    (alookup c1Store c1KeyY).map StatInfo.cumulative_time = some 10 ∧
    (alookup c1Store c1KeyZ).map StatInfo.cumulative_time = some 2 ∧
    ¬ ((10 : Rat) ≤ (1 : Rat)) ∧
    c1KeyZ.1.data < c1KeyY.1.data :=
  ⟨by decide, by decide, by decide, by decide, by decide, by decide, by decide,
    by decide⟩

/-- C7: for every key in `child_keys()`, `child(k)` succeeds and returns a
node wrapping the record `children[k]` (the store's record at `k`, which is
listed in the children dictionary), with parent back-reference `n` and depth
`n.depth + 1`. -/
theorem load_child_node_spec (g : Store) (n : StatNode) (k : Location)
    (h2 : ∀ p ∈ g, p.2.key_tuple = p.1)
    (hk : k ∈ load_child_keys g n) :
    ∃ child, alookup g k = some child ∧ k ∈ n.stat_info.children_dictionary ∧
      load_child_node g n (some k) =
        Except.ok (some (StatNode.ofStatInfo child (some n) (n.depth + 1))) ∧
      (StatNode.ofStatInfo child (some n) (n.depth + 1)).stat_info = child ∧
      (StatNode.ofStatInfo child (some n) (n.depth + 1)).parent = some n ∧
      (StatNode.ofStatInfo child (some n) (n.depth + 1)).depth = n.depth + 1 := by
  by_cases hemp : n.stat_info.children_dictionary.isEmpty
  · simp [load_child_keys, hemp] at hk
  · have hlck : load_child_keys g n =
        ((n.stat_info.children_dictionary.filterMap
          (fun k => alookup g k)).insertionSort ttDesc).map StatInfo.key_tuple := by
      simp [load_child_keys, hemp]
    rw [hlck] at hk
    obtain ⟨s, hs, rfl⟩ := List.mem_map.mp hk
    have hs' : s ∈ n.stat_info.children_dictionary.filterMap (fun k => alookup g k) :=
      (List.perm_insertionSort ttDesc _).subset hs
    obtain ⟨k', hk', halk⟩ := List.mem_filterMap.mp hs'
    have hkey : s.key_tuple = k' := alookup_key_tuple h2 halk
    have hmem : s.key_tuple ∈ n.stat_info.children_dictionary := hkey ▸ hk'
    have halk' : alookup g s.key_tuple = some s := hkey ▸ halk
    exact ⟨s, halk', hmem, by simp [load_child_node, hmem, halk'], rfl, rfl, rfl⟩

/-- C7 witness: expanding the first child key of the demo node. -/
theorem load_child_node_spec_witness :
    (∀ p ∈ demoStore, p.2.key_tuple = p.1) ∧
    demoKeyX ∈ load_child_keys demoStore demoNode ∧
    (∃ child, alookup demoStore demoKeyX = some child ∧
      demoKeyX ∈ demoNode.stat_info.children_dictionary ∧
      load_child_node demoStore demoNode (some demoKeyX) =
        Except.ok (some (StatNode.ofStatInfo child (some demoNode)
          (demoNode.depth + 1))) ∧
      (StatNode.ofStatInfo child (some demoNode) (demoNode.depth + 1)).stat_info =
        child ∧
      (StatNode.ofStatInfo child (some demoNode) (demoNode.depth + 1)).parent =
        some demoNode ∧
      (StatNode.ofStatInfo child (some demoNode) (demoNode.depth + 1)).depth =
        demoNode.depth + 1) :=
  ⟨by decide, by decide,
    load_child_node_spec demoStore demoNode demoKeyX (by decide) (by decide)⟩

/-- C8: filename truncation keeps the last `TRAIL_LENGTH = 3` path segments
behind a `".../"` marker for deep paths and leaves shallow paths unchanged;
it is a pure function of the filename string. -/
theorem truncate_filename_spec (name : String)
    (h : (splitSlash name).length ≤ TRAIL_LENGTH) :
    truncate_filename "/a/b/c/d/e.py" = ".../c/d/e.py" ∧
    truncate_filename "/a/b.py" = "/a/b.py" ∧
    truncate_filename name = name := by
  refine ⟨by decide, by decide, ?_⟩
  unfold truncate_filename
  rw [if_neg]
  omega

/-- C8 witness: the truncation contract applied to the shallow path of
Scenario F. -/
theorem truncate_filename_spec_witness :
    (splitSlash "/a/b.py").length ≤ TRAIL_LENGTH ∧
    (truncate_filename "/a/b/c/d/e.py" = ".../c/d/e.py" ∧
     truncate_filename "/a/b.py" = "/a/b.py" ∧
     truncate_filename "/a/b.py" = "/a/b.py") :=
  ⟨by decide, truncate_filename_spec "/a/b.py" (by decide)⟩

/-- C9: repeated calls of `child_keys()` and `get_display_text()` leave the
store and node untouched and return the same value, and the key sequence
depends only on the wrapped record (and the record graph), not on the
node's navigation context — there is no hidden mutable iteration state. -/
theorem child_keys_display_idempotent (st : Store × StatNode) (n' : StatNode)
    (hsame : n'.stat_info = st.2.stat_info) :
    (load_child_keys_call st).2 = st ∧
    (load_child_keys_call ((load_child_keys_call st).2)).1 =
      (load_child_keys_call st).1 ∧
    (get_display_text_call ((get_display_text_call st).2)).1 =
      (get_display_text_call st).1 ∧
    load_child_keys st.1 n' = load_child_keys st.1 st.2 := by
  refine ⟨rfl, rfl, rfl, ?_⟩
  simp [load_child_keys, hsame]

/-- C9 witness: a second cursor over the demo parent record, with different
parent link and depth, yields the identical key sequence. -/
theorem child_keys_display_idempotent_witness :
    demoNodeAlt.stat_info = (demoStore, demoNode).2.stat_info ∧
    ((load_child_keys_call (demoStore, demoNode)).2 = (demoStore, demoNode) ∧
     (load_child_keys_call ((load_child_keys_call (demoStore, demoNode)).2)).1 =
       (load_child_keys_call (demoStore, demoNode)).1 ∧
     (get_display_text_call ((get_display_text_call (demoStore, demoNode)).2)).1 =
       (get_display_text_call (demoStore, demoNode)).1 ∧
     load_child_keys demoStore demoNodeAlt = load_child_keys demoStore demoNode) :=
  ⟨rfl, child_keys_display_idempotent (demoStore, demoNode) demoNodeAlt rfl⟩

/-- C10: `load_child_node` called with the key `None` returns `None` without
raising, while an absent (non-`None`) key raises a `KeyError`. -/
theorem load_child_node_none (g : Store) (n : StatNode) :
    load_child_node g n none = Except.ok none ∧
    ∀ k, k ∉ n.stat_info.children_dictionary →
      load_child_node g n (some k) = Except.error (ChildError.keyError k) := by
  refine ⟨rfl, ?_⟩
  intro k hk
  simp [load_child_node, hk]

/-- C10 witness: the `None` key and an absent key on the demo node. -/
theorem load_child_node_none_witness :
    load_child_node demoStore demoNode none = Except.ok none ∧
    (("zz.py", 0, "zz") : Location) ∉ demoNode.stat_info.children_dictionary ∧
    load_child_node demoStore demoNode (some ("zz.py", 0, "zz")) =
      Except.error (ChildError.keyError ("zz.py", 0, "zz")) :=
  ⟨(load_child_node_none demoStore demoNode).1, by decide,
    (load_child_node_none demoStore demoNode).2 _ (by decide)⟩
